import Mathlib

/-!
Verification development for the feature-ingestion pipeline of
django-leaflet-storage, a shallow embedding of
`leaflet_storage/views.py` (class UploadData, method form_valid) and
`leaflet_storage/utils.py` (function smart_decode).

Python byte strings are embedded as lists of byte values (Nat), unicode
strings as lists of code points (Nat).  Property values are the scalar
values a GeoJSON properties object may carry.
-/

namespace LeafletStorage

/-- A Python scalar value, as it occurs in a feature's properties mapping:
a unicode string (list of code points), a byte string (list of byte values),
a number, or None. -/
inductive PValue where
  | ustr (cs : List Nat)
  | bytes (bs : List Nat)
  | num (q : Rat)
  | pnone
deriving DecidableEq

/-- Python truthiness of a scalar, deciding the source's `if not value` test:
empty strings, zero and None are falsy. -/
def truthy : PValue → Bool
  | .ustr cs => !cs.isEmpty
  | .bytes bs => !bs.isEmpty
  | .num q => q != 0
  | .pnone => false

/-- Is `b` a UTF-8 continuation byte (0x80..0xBF)? -/
def isCont (b : Nat) : Bool := 0x80 ≤ b && b ≤ 0xBF

/-- Modelled from the spec: the strict UTF-8 codec used by `smart_decode`
lives in the Python standard library, outside this repository.  Decode one
scalar value from the front of a byte list, returning the code point and the
remaining bytes, or `none` when the front is not a valid UTF-8 sequence
(stray continuation byte, overlong form, surrogate, value above U+10FFFF,
or truncated sequence). -/
def utf8DecodeOne : List Nat → Option (Nat × List Nat)
  | [] => none
  | b :: rest =>
    if b ≤ 0x7F then some (b, rest)
    else if b < 0xC2 then none
    else if b ≤ 0xDF then
      match rest with
      | b1 :: r =>
        if isCont b1 then some ((b - 0xC0) * 0x40 + (b1 - 0x80), r) else none
      | [] => none
    else if b ≤ 0xEF then
      match rest with
      | b1 :: b2 :: r =>
        if isCont b1 && isCont b2
            && (decide (0xE0 < b) || decide (0xA0 ≤ b1))
            && (decide (b < 0xED) || decide (b1 < 0xA0)) then
          some ((b - 0xE0) * 0x1000 + (b1 - 0x80) * 0x40 + (b2 - 0x80), r)
        else none
      | _ => none
    else if b ≤ 0xF4 then
      match rest with
      | b1 :: b2 :: b3 :: r =>
        if isCont b1 && isCont b2 && isCont b3
            && (decide (0xF0 < b) || decide (0x90 ≤ b1))
            && (decide (b < 0xF4) || decide (b1 < 0x90)) then
          some ((b - 0xF0) * 0x40000 + (b1 - 0x80) * 0x1000
                  + (b2 - 0x80) * 0x40 + (b3 - 0x80), r)
        else none
      | _ => none
    else none

/-- Fuel-indexed strict UTF-8 decoding of a whole byte list; the fuel is an
upper bound on the number of scalars and is always instantiated with the
length of the list, which suffices because each scalar consumes at least one
byte. -/
def utf8StrictAux : Nat → List Nat → Option (List Nat)
  | _, [] => some []
  | 0, _ :: _ => none
  | fuel + 1, b :: rest =>
    match utf8DecodeOne (b :: rest) with
    | some (cp, r) => (utf8StrictAux fuel r).map (cp :: ·)
    | none => none

/-- Modelled from the spec: strict UTF-8 decoding of a byte string to a list
of code points, `none` when the bytes are not valid UTF-8 (the codec raises
UnicodeDecodeError). -/
def utf8DecodeStrict (l : List Nat) : Option (List Nat) :=
  utf8StrictAux l.length l

/-- Modelled from the spec: UTF-8 decoding with the replace error handler,
substituting the replacement character U+FFFD for undecodable bytes.  This
attempt is total; theorem material below shows `smart_decode` never reaches
it because the latin-1 attempt before it is already total. -/
def utf8ReplaceAux : Nat → List Nat → List Nat
  | _, [] => []
  | 0, _ :: _ => []
  | fuel + 1, b :: rest =>
    match utf8DecodeOne (b :: rest) with
    | some (cp, r) => cp :: utf8ReplaceAux fuel r
    | none => 0xFFFD :: utf8ReplaceAux fuel rest

/-- Modelled from the spec: total UTF-8 decoding with replacement
characters. -/
def utf8DecodeReplace (l : List Nat) : List Nat :=
  utf8ReplaceAux l.length l

/-- The three (codec, error-handler) pairs tried by `smart_decode`, in
source order: ('utf-8','strict'), ('latin-1','strict'),
('utf-8','replace'). -/
inductive Codec where
  | utf8Strict
  | latin1Strict
  | utf8Replace
deriving DecidableEq

/-- Apply one decoding attempt to a byte string.  Latin-1 maps every byte to
the code point of the same value and never fails. -/
def applyCodec : Codec → List Nat → Option (List Nat)
  | .utf8Strict, bs => utf8DecodeStrict bs
  | .latin1Strict, bs => some bs
  | .utf8Replace, bs => some (utf8DecodeReplace bs)

/-- The `attempts` list of `smart_decode`, in source order. -/
def attempts : List Codec := [.utf8Strict, .latin1Strict, .utf8Replace]

/-- One `s.decode(*args)` call of the loop body: on a byte string it runs
the codec; on a number or None the attribute access raises (caught by the
bare except), embedded as `none`.  The unicode case is unreachable because
`smart_decode` returns unicode input before the loop. -/
def decodeWith (c : Codec) : PValue → Option (List Nat)
  | .bytes bs => applyCodec c bs
  | _ => none

/-- The `for args in attempts: try ... except: continue else: break` loop of
`smart_decode`: the first attempt that succeeds replaces `s` and stops the
loop; a failing attempt leaves `s` unchanged and moves to the next; when all
attempts fail, `s` is returned unchanged. -/
def tryAttempts : List Codec → PValue → PValue
  | [], s => s
  | c :: rest, s =>
    match decodeWith c s with
    | some cs => .ustr cs
    | none => tryAttempts rest s

/-- `smart_decode` from `leaflet_storage/utils.py`: return unicode input
unchanged, otherwise run the attempt loop. -/
def smart_decode (s : PValue) : PValue :=
  match s with
  | .ustr _ => s
  | _ => tryAttempts attempts s

/-- C9 -- `smart_decode` never raises on a byte string: it tries UTF-8
strict, then latin-1 strict, then UTF-8 with replacement, in exactly that
order, some attempt always succeeds, and the result is the decoding produced
by the first successful attempt.  Unicode input is returned unchanged. -/
theorem smart_decode_attempt_order (bs : List Nat) (cs : List Nat) :
    (∃ out, smart_decode (.bytes bs) = .ustr out) ∧
    smart_decode (.bytes bs) =
      (match applyCodec .utf8Strict bs with
       | some out => PValue.ustr out
       | none =>
         match applyCodec .latin1Strict bs with
         | some out => PValue.ustr out
         | none =>
           match applyCodec .utf8Replace bs with
           | some out => PValue.ustr out
           | none => PValue.bytes bs) ∧
    smart_decode (.ustr cs) = .ustr cs := by
  refine ⟨?_, ?_, rfl⟩ <;>
    simp only [smart_decode, attempts, tryAttempts, decodeWith, applyCodec] <;>
    cases h : utf8DecodeStrict bs <;> simp [h]

/-- C10 -- the latin-1 strict attempt is total over byte strings, so the
third attempt (UTF-8 with replacement) is unreachable: `smart_decode` on a
byte string equals the loop truncated to its first two attempts, and its
value is the strict UTF-8 decoding when the bytes are valid UTF-8 and the
latin-1 decoding (the bytes themselves, as code points) otherwise. -/
theorem latin1_total_third_attempt_unreachable (bs : List Nat) :
    applyCodec .latin1Strict bs = some bs ∧
    smart_decode (.bytes bs) = tryAttempts [.utf8Strict, .latin1Strict] (.bytes bs) ∧
    smart_decode (.bytes bs) =
      (match utf8DecodeStrict bs with
       | some out => PValue.ustr out
       | none => PValue.ustr bs) := by
  refine ⟨rfl, ?_, ?_⟩ <;>
    simp only [smart_decode, attempts, tryAttempts, decodeWith, applyCodec] <;>
    cases h : utf8DecodeStrict bs <;> simp [h]


/-! ## Geometry coordinates and the normalizer -/

/-- A raw GeoJSON coordinate structure: a number or a nested sequence.  The
nesting depth expected by the pipeline depends on the geometry kind, but the
input is untrusted and may have any shape. -/
inductive Coords where
  | num (q : Rat)
  | arr (xs : List Coords)

/-- Python 2's eager `map` under a try block: apply `f` to every element,
failing as a whole as soon as one application raises. -/
def mapOpt (f : Coords → Option Coords) : List Coords → Option (List Coords)
  | [] => some []
  | a :: l =>
    match f a, mapOpt f l with
    | some b, some l2 => some (b :: l2)
    | _, _ => none

/-- The `x[:2]` slice of one vertex: keeps the first two components of a
sequence; slicing a bare number raises TypeError, embedded as `none`. -/
def truncV : Coords → Option Coords
  | .arr xs => some (.arr (xs.take 2))
  | .num _ => none

/-- The inner `map(lambda y: y[:2], x)` applied to one polygon ring:
truncate every vertex of the ring; a ring that is a bare number cannot be
iterated (TypeError). -/
def truncRing : Coords → Option Coords
  | .arr vs => (mapOpt truncV vs).map .arr
  | .num _ => none

/-- The altitude-stripping block of `form_valid` (views.py lines 419-433):
LineString maps `x[:2]` over its vertices, Point slices its single
coordinate, Polygon maps the slice over every vertex of every ring; any
other kind leaves the coordinates untouched; any TypeError from slicing or
iterating is caught by the surrounding `except Exception`, embedded as
`none`. -/
def normalizeCoords (kind : String) (c : Coords) : Option Coords :=
  if kind = "LineString" then
    match c with
    | .arr vs => (mapOpt truncV vs).map .arr
    | .num _ => none
  else if kind = "Point" then
    truncV c
  else if kind = "Polygon" then
    match c with
    | .arr rings => (mapOpt truncRing rings).map .arr
    | .num _ => none
  else
    some c

/-- Does one vertex satisfy the component-count test `p`? -/
def vertexLen (p : Nat → Bool) : Coords → Bool
  | .arr xs => p xs.length
  | .num _ => false

/-- Does every vertex of one polygon ring satisfy the component-count test
`p`? -/
def ringAll (p : Nat → Bool) : Coords → Bool
  | .arr vs => vs.all (vertexLen p)
  | .num _ => false

/-- Does every vertex of `c`, at the nesting depth of `kind`, satisfy the
component-count test `p`?  Kinds other than the three supported ones have no
vertices, so the test holds vacuously. -/
def allVertices (p : Nat → Bool) (kind : String) (c : Coords) : Bool :=
  if kind = "LineString" then
    ringAll p c
  else if kind = "Point" then
    vertexLen p c
  else if kind = "Polygon" then
    match c with
    | .arr rings => rings.all (ringAll p)
    | .num _ => false
  else
    true

/-- Abbreviation for the vertex test "at least two components". -/
def ge2 : Nat → Bool := fun n => decide (2 ≤ n)

/-- Abbreviation for the vertex test "exactly two components". -/
def eq2 : Nat → Bool := fun n => decide (n = 2)

/-- Helper: mapping the slice over vertices that all have at least two
components succeeds and leaves every vertex with exactly two. -/
theorem mapOpt_truncV_ge2 (vs : List Coords)
    (h : vs.all (vertexLen ge2) = true) :
    ∃ vs2, mapOpt truncV vs = some vs2 ∧ vs2.all (vertexLen eq2) = true := by
  induction vs with
  | nil => exact ⟨[], rfl, rfl⟩
  | cons a l ih =>
    simp only [List.all_cons, Bool.and_eq_true] at h
    obtain ⟨l2, hl2, hall⟩ := ih h.2
    cases a with
    | num q => simp [vertexLen] at h
    | arr xs =>
      refine ⟨.arr (xs.take 2) :: l2, by simp [mapOpt, truncV, hl2], ?_⟩
      simp only [List.all_cons, Bool.and_eq_true]
      refine ⟨?_, hall⟩
      have hx : 2 ≤ xs.length := by simpa [vertexLen, ge2] using h.1
      simp only [vertexLen, eq2, List.length_take, decide_eq_true_eq]
      omega

/-- Helper: mapping the slice over vertices that already have exactly two
components returns them unchanged. -/
theorem mapOpt_truncV_eq2 (vs : List Coords)
    (h : vs.all (vertexLen eq2) = true) :
    mapOpt truncV vs = some vs := by
  induction vs with
  | nil => rfl
  | cons a l ih =>
    simp only [List.all_cons, Bool.and_eq_true] at h
    cases a with
    | num q => simp [vertexLen] at h
    | arr xs =>
      have hx : xs.length = 2 := by simpa [vertexLen, eq2] using h.1
      have ht : xs.take 2 = xs := List.take_of_length_le (by omega)
      simp [mapOpt, truncV, ht, ih h.2]

/-- Helper: normalizing a list of rings whose vertices all have at least two
components succeeds, leaving every vertex with exactly two. -/
theorem mapOpt_truncRing_ge2 (rings : List Coords)
    (h : rings.all (ringAll ge2) = true) :
    ∃ rs2, mapOpt truncRing rings = some rs2 ∧ rs2.all (ringAll eq2) = true := by
  induction rings with
  | nil => exact ⟨[], rfl, rfl⟩
  | cons r rs ih =>
    simp only [List.all_cons, Bool.and_eq_true] at h
    obtain ⟨rs2, hrs2, hall⟩ := ih h.2
    cases r with
    | num q => simp [ringAll] at h
    | arr vs =>
      obtain ⟨vs2, hvs2, hvall⟩ := mapOpt_truncV_ge2 vs (by simpa [ringAll] using h.1)
      exact ⟨.arr vs2 :: rs2, by simp [mapOpt, truncRing, hvs2, hrs2],
        by simp [ringAll, hvall, hall]⟩

/-- Helper: normalizing rings whose vertices already have exactly two
components returns them unchanged. -/
theorem mapOpt_truncRing_eq2 (rings : List Coords)
    (h : rings.all (ringAll eq2) = true) :
    mapOpt truncRing rings = some rings := by
  induction rings with
  | nil => rfl
  | cons r rs ih =>
    simp only [List.all_cons, Bool.and_eq_true] at h
    cases r with
    | num q => simp [ringAll] at h
    | arr vs =>
      have hv := mapOpt_truncV_eq2 vs (by simpa [ringAll] using h.1)
      simp [mapOpt, truncRing, hv, ih h.2]

/-- C5 -- for any Point, LineString or Polygon coordinate structure all of
whose vertices carry at least two components, normalization succeeds and
every vertex of the output carries exactly two components. -/
theorem normalize_truncates_to_two (kind : String) (c : Coords)
    (hkind : kind = "Point" ∨ kind = "LineString" ∨ kind = "Polygon")
    (h : allVertices ge2 kind c = true) :
    ∃ c2, normalizeCoords kind c = some c2 ∧
      allVertices eq2 kind c2 = true := by
  rcases hkind with rfl | rfl | rfl
  · cases c with
    | num q => simp [allVertices, vertexLen] at h
    | arr xs =>
      have hx : 2 ≤ xs.length := by simpa [allVertices, vertexLen, ge2] using h
      refine ⟨.arr (xs.take 2), by simp [normalizeCoords, truncV], ?_⟩
      simp [allVertices, vertexLen, eq2, List.length_take]
      omega
  · cases c with
    | num q => simp [allVertices, ringAll] at h
    | arr vs =>
      have hall : vs.all (vertexLen ge2) = true := by
        simpa [allVertices, ringAll] using h
      obtain ⟨vs2, hvs2, h2⟩ := mapOpt_truncV_ge2 vs hall
      exact ⟨.arr vs2, by simp [normalizeCoords, hvs2],
        by simp [allVertices, ringAll, h2]⟩
  · cases c with
    | num q => simp [allVertices] at h
    | arr rings =>
      have hall : rings.all (ringAll ge2) = true := by
        simpa [allVertices] using h
      obtain ⟨rs2, hrs2, h2⟩ := mapOpt_truncRing_ge2 rings hall
      exact ⟨.arr rs2, by simp [normalizeCoords, hrs2],
        by simp [allVertices, h2]⟩

/-- C5 witness: a 3-component point is normalized to exactly two
components. -/
theorem normalize_truncates_to_two_witness :
    allVertices ge2 "Point" (.arr [.num 2, .num 48, .num 35]) = true ∧
    ∃ c2, normalizeCoords "Point" (.arr [.num 2, .num 48, .num 35]) = some c2 ∧
      allVertices eq2 "Point" c2 = true :=
  ⟨by decide, normalize_truncates_to_two "Point" (.arr [.num 2, .num 48, .num 35])
    (Or.inl rfl) (by decide)⟩

/-- C6 -- normalization is idempotent: a coordinate structure whose vertices
already have exactly two components is returned unchanged (kinds without a
normalization rule are always returned unchanged). -/
theorem normalize_idempotent (kind : String) (c : Coords)
    (h : allVertices eq2 kind c = true) :
    normalizeCoords kind c = some c := by
  by_cases hl : kind = "LineString"
  · subst hl
    cases c with
    | num q => simp [allVertices, ringAll] at h
    | arr vs =>
      have hall : vs.all (vertexLen eq2) = true := by
        simpa [allVertices, ringAll] using h
      simp [normalizeCoords, mapOpt_truncV_eq2 vs hall]
  · by_cases hp : kind = "Point"
    · subst hp
      cases c with
      | num q => simp [allVertices, vertexLen] at h
      | arr xs =>
        have hx : xs.length = 2 := by simpa [allVertices, vertexLen, eq2] using h
        have ht : xs.take 2 = xs := List.take_of_length_le (by omega)
        simp [normalizeCoords, truncV, ht]
    · by_cases hg : kind = "Polygon"
      · subst hg
        cases c with
        | num q => simp [allVertices] at h
        | arr rings =>
          have hall : rings.all (ringAll eq2) = true := by
            simpa [allVertices] using h
          simp [normalizeCoords, mapOpt_truncRing_eq2 rings hall]
      · simp [normalizeCoords, hl, hp, hg]

/-- C6 witness: an already-2D line string is returned unchanged. -/
theorem normalize_idempotent_witness :
    allVertices eq2 "LineString"
        (.arr [.arr [.num 0, .num 1], .arr [.num 2, .num 3]]) = true ∧
    normalizeCoords "LineString"
        (.arr [.arr [.num 0, .num 1], .arr [.num 2, .num 3]]) =
      some (.arr [.arr [.num 0, .num 1], .arr [.num 2, .num 3]]) :=
  ⟨by decide, normalize_idempotent "LineString"
    (.arr [.arr [.num 0, .num 1], .arr [.num 2, .num 3]]) (by decide)⟩

/-! ## Feature classifier and geometry validator -/

/-- The three target record kinds (Django model classes Marker, Polyline,
Polygon). -/
inductive ModelKind where
  | Marker
  | Polyline
  | Polygon
deriving DecidableEq

/-- The `FEATURE_TO_MODEL` dispatch table of `form_valid`, read with
`.get(type, None)`: any kind outside the table yields `none`. -/
def FEATURE_TO_MODEL : String → Option ModelKind
  | "Point" => some .Marker
  | "LineString" => some .Polyline
  | "Polygon" => some .Polygon
  | _ => none

/-- A validated geometry value. -/
inductive Geometry where
  | point (x y : Rat)
  | line (pts : List (Rat × Rat))
  | poly (rings : List (List (Rat × Rat)))
deriving DecidableEq

/-- Outcome of geometry construction: a geometry, a construction failure
(the GEOSGeometry call raised), or an empty geometry (`latlng.empty`). -/
inductive ValidationOutcome where
  | ok (g : Geometry)
  | malformed
  | empty
deriving DecidableEq

/-- Read one normalized vertex as a numeric pair. -/
def asPair : Coords → Option (Rat × Rat)
  | .arr [.num x, .num y] => some (x, y)
  | _ => none

/-- Python 2's eager `map` reading every vertex as a pair. -/
def mapPairs : List Coords → Option (List (Rat × Rat))
  | [] => some []
  | a :: l =>
    match asPair a, mapPairs l with
    | some b, some l2 => some (b :: l2)
    | _, _ => none

/-- One polygon ring read as a list of pairs. -/
def asRing : Coords → Option (List (Rat × Rat))
  | .arr vs => mapPairs vs
  | .num _ => none

/-- Read every ring of a polygon. -/
def mapRings : List Coords → Option (List (List (Rat × Rat)))
  | [] => some []
  | a :: l =>
    match asRing a, mapRings l with
    | some b, some l2 => some (b :: l2)
    | _, _ => none

/-- Modelled from the spec: `form_valid` delegates geometry construction to
the external GEOS library (`GEOSGeometry(simplejson.dumps(...))` under a
try/except, then the `latlng.empty` test), which is not part of this
repository.  Spec section 4.2 prescribes classification by the kind's
minimal cardinality rule: a Point needs one finite numeric pair, a
LineString at least two pairs, a Polygon at least one ring of at least four
pairs; coordinates that cannot be read as pairs at the kind's nesting depth
make construction raise (`malformed`), and below-minimum cardinality makes
the geometry empty. -/
def validateGeometry (kind : String) (c : Coords) : ValidationOutcome :=
  if kind = "Point" then
    match c with
    | .arr [] => .empty
    | .arr [.num x, .num y] => .ok (.point x y)
    | _ => .malformed
  else if kind = "LineString" then
    match c with
    | .arr vs =>
      match mapPairs vs with
      | some pts => if 2 ≤ pts.length then .ok (.line pts) else .empty
      | none => .malformed
    | .num _ => .malformed
  else if kind = "Polygon" then
    match c with
    | .arr rs =>
      match mapRings rs with
      | some rings =>
        if 1 ≤ rings.length && rings.all (fun r => 4 ≤ r.length) then
          .ok (.poly rings)
        else .empty
      | none => .malformed
    | .num _ => .malformed
  else .malformed

/-! ## Property mapper -/

/-- The caller-supplied target layer: an opaque identifier and a display
name (a unicode string, as a list of code points). -/
structure DataLayer where
  id : Nat
  name : List Nat
deriving DecidableEq

/-- The `FIELDS` table of `form_valid`: each entry is a tuple whose first
item is the canonical field name and whose items, in order, are the
candidate source keys scanned for that field. -/
def FIELDS : List (List String) :=
  [["name", "title"],
   ["description", "desc", "text"],
   ["color", "hexcolor"]]

/-- A feature's properties mapping (a Python dict): an association list from
string keys to scalar values. -/
abbrev Props := List (String × PValue)

/-- `kwargs[k] = v` on a Python dict embedded as an association list:
replace the value of an existing key, or append a fresh binding. -/
def setKey (k : String) (v : PValue) : List (String × PValue) → List (String × PValue)
  | [] => [(k, v)]
  | (k0, v0) :: rest =>
    if k0 = k then (k, v) :: rest else (k0, v0) :: setKey k v rest

/-- The keyword-argument dict built per feature: the geometry, the target
layer reference, the named model fields (seeded with the default name), and
the lazily created `options` dict (embedded as a list that starts empty). -/
structure Kwargs where
  latlng : Geometry
  datalayer : Nat
  fields : List (String × PValue)
  options : List (String × PValue)
deriving DecidableEq

/-- The initial kwargs of `form_valid`: latlng, datalayer, and the layer's
name as the default `name`. -/
def initKwargs (latlng : Geometry) (dl : DataLayer) : Kwargs :=
  { latlng := latlng
    datalayer := dl.id
    fields := [("name", .ustr dl.name)]
    options := [] }

/-- The assignment at the end of a winning scan: a canonical field name that
is among the model's field names is stored as a named field, any other lands
in the `options` dict under the canonical name. -/
def assignValue (fieldNames : List String) (name : String) (v : PValue)
    (kwargs : Kwargs) : Kwargs :=
  if name ∈ fieldNames then
    { kwargs with fields := setKey name v kwargs.fields }
  else
    { kwargs with options := setKey name v kwargs.options }

/-- The inner `for candidate in candidates` loop of `form_valid`: scan the
candidates in order; a candidate missing from the properties, or present
with a falsy value, is passed over; the first candidate with a truthy value
is decoded with `smart_decode`, assigned, and the loop breaks. -/
def scanCandidates (props : Props) (fieldNames : List String) (name : String)
    (kwargs : Kwargs) : List String → Kwargs
  | [] => kwargs
  | candidate :: rest =>
    match props.lookup candidate with
    | none => scanCandidates props fieldNames name kwargs rest
    | some value =>
      if truthy value then
        assignValue fieldNames name (smart_decode value) kwargs
      else
        scanCandidates props fieldNames name kwargs rest

/-- One iteration of the outer `for field in FIELDS` loop: the canonical
name is the tuple's first item and the candidates are the whole tuple. -/
def applyField (props : Props) (fieldNames : List String) (kwargs : Kwargs)
    (field : List String) : Kwargs :=
  scanCandidates props fieldNames (field.headD "") kwargs field

/-- The whole property-mapping loop of `form_valid` (views.py lines
445-465). -/
def mapProperties (props : Props) (fieldNames : List String)
    (kwargs : Kwargs) : Kwargs :=
  FIELDS.foldl (applyField props fieldNames) kwargs

/-! ## Ingestion coordinator -/

/-- One raw input feature, as the external decoder hands it to the loop: a
geometry kind tag, a raw coordinate structure, and a properties mapping. -/
structure RawFeature where
  geomType : String
  coords : Coords
  properties : Props

/-- One row committed to the feature store: the model class it was created
through and the keyword arguments it was created with. -/
structure StoredRecord where
  kind : ModelKind
  kwargs : Kwargs
deriving DecidableEq

/-- The persisted feature store: the rows visible inside the current outer
transaction, in insertion order. -/
abbrev Store := List StoredRecord

/-- The external collaborators of the loop, supplied per batch:
`modelFields` is `klass._meta.get_all_field_names()` for each model class
(the models live in `models.py`, outside the embedded sources); `fails`
says whether `klass.objects.create(**kwargs)` raises on the given store;
`partials` is whatever partial rows a failing create leaves behind before
the exception, which the savepoint rollback must discard. -/
structure IngestEnv where
  modelFields : ModelKind → List String
  fails : Store → ModelKind → Kwargs → Bool
  partials : Store → ModelKind → Kwargs → List StoredRecord

/-- Modelled from the spec: `transaction.savepoint_rollback(sid)` restores
the store captured when the savepoint was set, discarding every write made
since. -/
def savepointRollback (sid _after : Store) : Store := sid

/-- How one feature fared in the loop: committed, or skipped at one of the
five `continue` sites of `form_valid`. -/
inductive FeatureOutcome where
  | committed
  | unsupportedKind
  | malformedCoords
  | invalidGeometry
  | emptyGeometry
  | persistenceFailed
deriving DecidableEq

/-- One iteration of the `for feature in features` loop of `form_valid`:
set a savepoint, classify the kind, strip altitude, construct and test the
geometry, map the properties, and attempt the create, committing the
savepoint and counting on success and rolling the savepoint back on a
persistence error.  Every failure path is a `continue`; the returned
outcome records which one was taken. -/
def featureStep (env : IngestEnv) (dl : DataLayer) (store : Store)
    (f : RawFeature) : FeatureOutcome × Store :=
  let sid := store
  match FEATURE_TO_MODEL f.geomType with
  | none => (.unsupportedKind, store)
  | some klass =>
    match normalizeCoords f.geomType f.coords with
    | none => (.malformedCoords, store)
    | some coords =>
      match validateGeometry f.geomType coords with
      | .malformed => (.invalidGeometry, store)
      | .empty => (.emptyGeometry, store)
      | .ok latlng =>
        let kwargs := mapProperties f.properties (env.modelFields klass)
          (initKwargs latlng dl)
        if env.fails store klass kwargs then
          (.persistenceFailed,
            savepointRollback sid (store ++ env.partials store klass kwargs))
        else
          (.committed, store ++ [⟨klass, kwargs⟩])

/-- The loop over the whole feature sequence, threading the store and the
success counter (`counter += 1` runs only after a committed savepoint). -/
def ingestLoop (env : IngestEnv) (dl : DataLayer) :
    List RawFeature → Store × Nat → Store × Nat
  | [], st => st
  | f :: fs, (store, counter) =>
    match featureStep env dl store f with
    | (.committed, store2) => ingestLoop env dl fs (store2, counter + 1)
    | (_, store2) => ingestLoop env dl fs (store2, counter)

/-- The outcome of every feature of a run, in input order. -/
def runOutcomes (env : IngestEnv) (dl : DataLayer) :
    List RawFeature → Store → List FeatureOutcome
  | [], _ => []
  | f :: fs, store =>
    match featureStep env dl store f with
    | (o, store2) => o :: runOutcomes env dl fs store2

/-- The rows appended by the committed features of a run, in input order:
each committed feature contributes the rows its step added past the store it
started from. -/
def committedRecords (env : IngestEnv) (dl : DataLayer) :
    List RawFeature → Store → List StoredRecord
  | [], _ => []
  | f :: fs, store =>
    match featureStep env dl store f with
    | (.committed, store2) =>
      store2.drop store.length ++ committedRecords env dl fs store2
    | (_, store2) => committedRecords env dl fs store2

/-- The up-to-date layer representation (`datalayer.json`) returned on
success: the rows of the final store that belong to the target layer. -/
def layerSnapshot (store : Store) (dl : DataLayer) : List StoredRecord :=
  store.filter (fun r => r.kwargs.datalayer = dl.id)

/-- The ingestion summary handed back by `form_valid`: a success response
carrying the count and the layer representation when the counter is
non-zero, the "No valid feature has been found" error response otherwise. -/
inductive IngestionResult where
  | success (count : Nat) (layerJson : List StoredRecord)
  | noValidFeatures
deriving DecidableEq

/-- The whole of `form_valid` after form cleaning: run the loop over the
features with the counter starting at zero, commit the outer transaction,
and build the response from the final counter. -/
def ingest (env : IngestEnv) (dl : DataLayer) (features : List RawFeature)
    (store0 : Store) : IngestionResult × Store :=
  match ingestLoop env dl features (store0, 0) with
  | (store, counter) =>
    if counter ≠ 0 then (.success counter (layerSnapshot store dl), store)
    else (.noValidFeatures, store)

/-! ## Helper lemmas about one loop iteration -/

/-- Every step either skips, leaving the store exactly as it was (including
the persistence-failure path, where the savepoint rollback discards the
failing create's partial writes), or commits, appending exactly one row. -/
theorem featureStep_cases (env : IngestEnv) (dl : DataLayer) (store : Store)
    (f : RawFeature) :
    ((featureStep env dl store f).1 ≠ .committed ∧
      (featureStep env dl store f).2 = store)
    ∨ ∃ rec, featureStep env dl store f = (.committed, store ++ [rec]) := by
  simp only [featureStep]
  split
  · exact Or.inl ⟨by simp, rfl⟩
  · split
    · exact Or.inl ⟨by simp, rfl⟩
    · split
      · exact Or.inl ⟨by simp, rfl⟩
      · exact Or.inl ⟨by simp, rfl⟩
      · split
        · exact Or.inl ⟨by simp, rfl⟩
        · exact Or.inr ⟨_, rfl⟩

/-- A step whose outcome is not `committed` leaves the store unchanged. -/
theorem featureStep_skip (env : IngestEnv) (dl : DataLayer) (store : Store)
    (f : RawFeature) (h : (featureStep env dl store f).1 ≠ .committed) :
    (featureStep env dl store f).2 = store := by
  rcases featureStep_cases env dl store f with ⟨_, h2⟩ | ⟨rec, hrec⟩
  · exact h2
  · rw [hrec] at h
    exact absurd rfl h

/-- The loop over a concatenation is the loop over the second part started
from the state the first part reaches. -/
theorem ingestLoop_append (env : IngestEnv) (dl : DataLayer)
    (fs1 fs2 : List RawFeature) (st : Store × Nat) :
    ingestLoop env dl (fs1 ++ fs2) st =
      ingestLoop env dl fs2 (ingestLoop env dl fs1 st) := by
  induction fs1 generalizing st with
  | nil => rfl
  | cons f fs ih =>
    obtain ⟨store, c⟩ := st
    simp only [List.cons_append, ingestLoop]
    cases featureStep env dl store f with
    | mk o store2 => cases o <;> exact ih _

/-- The counter after the loop is its starting value plus the number of
committed outcomes. -/
theorem ingestLoop_counter (env : IngestEnv) (dl : DataLayer)
    (fs : List RawFeature) (store : Store) (c : Nat) :
    (ingestLoop env dl fs (store, c)).2 =
      c + (runOutcomes env dl fs store).count .committed := by
  induction fs generalizing store c with
  | nil => simp [ingestLoop, runOutcomes]
  | cons f fs ih =>
    simp only [ingestLoop, runOutcomes]
    cases featureStep env dl store f with
    | mk o store2 =>
      cases o <;> simp [ih, List.count_cons] <;> omega

/-- Every input feature produces exactly one outcome. -/
theorem runOutcomes_length (env : IngestEnv) (dl : DataLayer)
    (fs : List RawFeature) (store : Store) :
    (runOutcomes env dl fs store).length = fs.length := by
  induction fs generalizing store with
  | nil => rfl
  | cons f fs ih =>
    simp only [runOutcomes]
    cases featureStep env dl store f with
    | mk o store2 => simp [ih]

/-- The six outcome kinds partition a run: their counts add up to the number
of features. -/
theorem outcome_count_partition (os : List FeatureOutcome) :
    os.count .committed + os.count .unsupportedKind + os.count .malformedCoords
      + os.count .invalidGeometry + os.count .emptyGeometry
      + os.count .persistenceFailed = os.length := by
  induction os with
  | nil => rfl
  | cons o os ih => cases o <;> simp [List.count_cons] <;> omega

/-- The store after the loop is the starting store with the committed
features' rows appended, in order. -/
theorem ingestLoop_store (env : IngestEnv) (dl : DataLayer)
    (fs : List RawFeature) (store : Store) (c : Nat) :
    (ingestLoop env dl fs (store, c)).1 =
      store ++ committedRecords env dl fs store := by
  induction fs generalizing store c with
  | nil => simp [ingestLoop, committedRecords]
  | cons f fs ih =>
    simp only [ingestLoop, committedRecords]
    rcases featureStep_cases env dl store f with ⟨h1, h2⟩ | ⟨rec, hrec⟩
    · cases hf : featureStep env dl store f with
      | mk o store2 =>
        rw [hf] at h1 h2
        simp only at h1 h2
        subst h2
        cases o
        · exact absurd rfl h1
        all_goals simp [ih]
    · rw [hrec]
      simp only
      rw [ih]
      simp [List.drop_left, List.append_assoc]

/-! ## Sample batch objects used by the witnesses -/

/-- Modelled from the spec: the Django models live in `models.py`, outside
the embedded sources; per spec section 3 every stored feature carries the
named fields `name`, `description` and `color`, so those are the field
names `klass._meta.get_all_field_names()` reports for each model class. -/
def stdFieldNames : List String := ["name", "description", "color"]

/-- A persistence environment whose creates always succeed. -/
def envOk : IngestEnv :=
  { modelFields := fun _ => stdFieldNames
    fails := fun _ _ _ => false
    partials := fun _ _ _ => [] }

/-- A persistence environment whose creates always raise after writing a
partial row. -/
def envFail : IngestEnv :=
  { modelFields := fun _ => stdFieldNames
    fails := fun _ _ _ => true
    partials := fun _ klass kwargs => [⟨klass, kwargs⟩] }

/-- A sample target layer. -/
def dlSample : DataLayer := ⟨1, [76]⟩

/-- A feature of an unsupported geometry kind. -/
def fCircle : RawFeature := ⟨"Circle", .arr [], []⟩

/-- A well-formed point feature (with a trailing altitude). -/
def fPoint : RawFeature := ⟨"Point", .arr [.num 2, .num 48, .num 35], []⟩

/-! ## The coordinator claims -/

/-- C1 -- no per-feature error aborts ingestion: a feature whose step fails
(unsupported kind, malformed coordinates, failed or empty geometry, or
persistence failure) is skipped exactly as if it had not been in the input,
and the loop continues with the next feature; `ingest` always returns a
summary. -/
theorem ingest_skips_failing_feature (env : IngestEnv) (dl : DataLayer)
    (store0 : Store) (pre post : List RawFeature) (f : RawFeature)
    (h : (featureStep env dl (ingestLoop env dl pre (store0, 0)).1 f).1 ≠ .committed) :
    ingest env dl (pre ++ f :: post) store0 = ingest env dl (pre ++ post) store0 := by
  have hloop : ingestLoop env dl (pre ++ f :: post) (store0, 0) =
      ingestLoop env dl (pre ++ post) (store0, 0) := by
    rw [ingestLoop_append, ingestLoop_append]
    cases hst : ingestLoop env dl pre (store0, 0) with
    | mk store1 c1 =>
      rw [hst] at h
      simp only at h
      have hskip := featureStep_skip env dl store1 f h
      simp only [ingestLoop]
      cases hf : featureStep env dl store1 f with
      | mk o store2 =>
        rw [hf] at h hskip
        simp only at h hskip
        subst hskip
        cases o
        · exact absurd rfl h
        all_goals rfl
  unfold ingest
  rw [hloop]

/-- C1 witness: deleting a feature of unsupported kind from a batch does not
change the ingestion outcome. -/
theorem ingest_skips_failing_feature_witness :
    (featureStep envOk dlSample (ingestLoop envOk dlSample [] ([], 0)).1 fCircle).1
        ≠ .committed ∧
    ingest envOk dlSample ([] ++ fCircle :: [fPoint]) [] =
      ingest envOk dlSample ([] ++ [fPoint]) [] :=
  ⟨by decide, ingest_skips_failing_feature envOk dlSample [] [] [fPoint] fCircle
    (by decide)⟩

/-- C2 -- per-feature transactional independence: the final store is the
starting store with exactly the committed features' rows appended in order
(so previously committed rows survive untouched and a skipped feature
contributes no row), and any step that does not commit — in particular a
persistence failure, whose partial writes the savepoint rollback discards —
leaves the store exactly as if the feature had never been attempted. -/
theorem ingest_transactional_independence (env : IngestEnv) (dl : DataLayer)
    (features : List RawFeature) (store0 : Store) :
    (ingestLoop env dl features (store0, 0)).1 =
      store0 ++ committedRecords env dl features store0 ∧
    ∀ store f, (featureStep env dl store f).1 ≠ .committed →
      (featureStep env dl store f).2 = store :=
  ⟨ingestLoop_store env dl features store0 0,
   fun store f h => featureStep_skip env dl store f h⟩

/-- C2 witness: a failing create writes a partial row, and the rollback
leaves the store exactly as before the feature. -/
theorem ingest_transactional_independence_witness :
    (featureStep envFail dlSample [] fPoint).1 ≠ .committed ∧
    (featureStep envFail dlSample [] fPoint).2 = [] :=
  ⟨by decide,
    (ingest_transactional_independence envFail dlSample [] []).2 [] fPoint
      (by decide)⟩

/-- C3 -- the success counter equals the number of input features minus the
number of features skipped as unsupported-kind, malformed (at normalization
or at geometry construction), empty-geometry, or persistence-failed; equivalently,
it counts exactly the features that pass every stage and commit. -/
theorem ingest_counter_counts_commits (env : IngestEnv) (dl : DataLayer)
    (features : List RawFeature) (store0 : Store) :
    (ingestLoop env dl features (store0, 0)).2 =
      features.length -
        ((runOutcomes env dl features store0).count .unsupportedKind
          + (runOutcomes env dl features store0).count .malformedCoords
          + (runOutcomes env dl features store0).count .invalidGeometry
          + (runOutcomes env dl features store0).count .emptyGeometry
          + (runOutcomes env dl features store0).count .persistenceFailed) ∧
    (ingestLoop env dl features (store0, 0)).2 =
      (runOutcomes env dl features store0).count .committed := by
  have hc := ingestLoop_counter env dl features store0 0
  have hp := outcome_count_partition (runOutcomes env dl features store0)
  have hl := runOutcomes_length env dl features store0
  constructor
  · omega
  · omega

/-- C4 -- the response dichotomy: the loop's final counter decides the
summary — `noValidFeatures` exactly when the counter is zero, and otherwise
a success summary carrying the counter and the up-to-date layer
representation of the final store; a batch with no committed feature (in
particular an empty batch) yields `noValidFeatures`. -/
theorem ingest_result_dichotomy (env : IngestEnv) (dl : DataLayer)
    (features : List RawFeature) (store0 : Store) :
    ((ingest env dl features store0).1 = .noValidFeatures ↔
      (ingestLoop env dl features (store0, 0)).2 = 0) ∧
    (0 < (ingestLoop env dl features (store0, 0)).2 →
      (ingest env dl features store0).1 =
        .success (ingestLoop env dl features (store0, 0)).2
          (layerSnapshot (ingestLoop env dl features (store0, 0)).1 dl)) ∧
    ((∀ o ∈ runOutcomes env dl features store0, o ≠ .committed) →
      (ingest env dl features store0).1 = .noValidFeatures) ∧
    (features = [] → (ingest env dl features store0).1 = .noValidFeatures) := by
  have hc := ingestLoop_counter env dl features store0 0
  cases hst : ingestLoop env dl features (store0, 0) with
  | mk store c =>
    rw [hst] at hc
    simp only at hc
    unfold ingest
    rw [hst]
    simp only
    by_cases h0 : c = 0
    · subst h0
      refine ⟨by simp, by omega, fun _ => by simp, fun _ => by simp⟩
    · refine ⟨by simp [h0], fun _ => by simp [h0], ?_, ?_⟩
      · intro hall
        exfalso
        apply h0
        have : (runOutcomes env dl features store0).count FeatureOutcome.committed = 0 :=
          List.count_eq_zero.mpr (fun hmem => hall _ hmem rfl)
        omega
      · intro hnil
        subst hnil
        simp [ingestLoop] at hst
        omega

/-- C4 witness: a batch whose single feature has an unsupported kind commits
nothing and yields the no-valid-feature response. -/
theorem ingest_result_dichotomy_witness :
    (∀ o ∈ runOutcomes envOk dlSample [fCircle] [], o ≠ .committed) ∧
    (ingest envOk dlSample [fCircle] []).1 = .noValidFeatures :=
  ⟨by decide,
    (ingest_result_dichotomy envOk dlSample [fCircle] []).2.2.1 (by decide)⟩

/-! ## Property-mapper claims -/

/-- Helper: the scan over a candidate list is a first-match search — it
equals a `find?` for the first candidate bound to a truthy value, followed
by one assignment of that candidate's decoded value (or no change when no
candidate matches). -/
theorem scanCandidates_find_characterization (props : Props)
    (fieldNames : List String) (name : String) (kwargs : Kwargs)
    (cands : List String) :
    scanCandidates props fieldNames name kwargs cands =
      match cands.find? (fun c => ((props.lookup c).map truthy).getD false) with
      | none => kwargs
      | some c =>
        assignValue fieldNames name
          (smart_decode ((props.lookup c).getD .pnone)) kwargs := by
  induction cands with
  | nil => rfl
  | cons c rest ih =>
    simp only [scanCandidates, List.find?]
    cases hc : props.lookup c with
    | none => simpa [hc] using ih
    | some v =>
      cases ht : truthy v with
      | false => simpa [hc, ht] using ih
      | true => simp [hc, ht]

/-- C7 -- the scan over one field's candidate list has first-match-wins
semantics: the first candidate key that is present in the properties with a
truthy (non-empty) value determines the field's value (after decoding), the
candidates after it are ignored, and candidates that are absent or bound to
a falsy value are passed over; when no candidate wins, the kwargs are left
untouched. -/
theorem scan_first_truthy_candidate_wins (props : Props)
    (fieldNames : List String) (name : String) (kwargs : Kwargs)
    (cands : List String) :
    scanCandidates props fieldNames name kwargs cands =
      match cands.find? (fun c => ((props.lookup c).map truthy).getD false) with
      | none => kwargs
      | some c =>
        assignValue fieldNames name
          (smart_decode ((props.lookup c).getD .pnone)) kwargs :=
  scanCandidates_find_characterization props fieldNames name kwargs cands

/-- Looking up a key other than the one being set is unaffected. -/
theorem setKey_lookup_ne (m : List (String × PValue)) (k0 k : String)
    (v : PValue) (h : k0 ≠ k) : (setKey k0 v m).lookup k = m.lookup k := by
  have hb : (k == k0) = false := by
    simp only [beq_eq_false_iff_ne, ne_eq]
    exact fun e => h e.symm
  induction m with
  | nil => simp [setKey, List.lookup, hb]
  | cons p rest ih =>
    obtain ⟨k1, v1⟩ := p
    by_cases h1 : k1 = k0
    · subst h1
      simp [setKey, List.lookup, hb]
    · simp only [setKey, if_neg h1, List.lookup]
      cases k == k1 <;> simp [ih]

/-- An assignment under a canonical name other than `k` leaves both the
named fields and the options unchanged at `k`. -/
theorem assignValue_lookup_ne (fieldNames : List String) (name k : String)
    (v : PValue) (kwargs : Kwargs) (h : name ≠ k) :
    ((assignValue fieldNames name v kwargs).fields.lookup k =
        kwargs.fields.lookup k) ∧
    ((assignValue fieldNames name v kwargs).options.lookup k =
        kwargs.options.lookup k) := by
  unfold assignValue
  split
  · exact ⟨setKey_lookup_ne _ _ _ _ h, rfl⟩
  · exact ⟨rfl, setKey_lookup_ne _ _ _ _ h⟩

/-- Scanning one field whose canonical name differs from `k` leaves both
mappings unchanged at `k`. -/
theorem scan_lookup_ne (props : Props) (fieldNames : List String)
    (name k : String) (kwargs : Kwargs) (cands : List String) (h : name ≠ k) :
    ((scanCandidates props fieldNames name kwargs cands).fields.lookup k =
        kwargs.fields.lookup k) ∧
    ((scanCandidates props fieldNames name kwargs cands).options.lookup k =
        kwargs.options.lookup k) := by
  rw [scanCandidates_find_characterization]
  cases (cands.find? (fun c => ((props.lookup c).map truthy).getD false)) with
  | none => exact ⟨rfl, rfl⟩
  | some c => exact assignValue_lookup_ne fieldNames name k _ kwargs h

/-- C8 counterexample -- the claim "a property key outside every alias list
is placed verbatim into options under its own key" fails at the concrete
properties mapping containing only the key "foo": the key is present with a
truthy value and belongs to no field definition, yet the mapper's resulting
options contain no binding for it. -/
theorem unmatched_key_absent_from_options_counterexample :
    (∀ field ∈ FIELDS, "foo" ∉ field) ∧
    ([("foo", PValue.ustr [98, 97, 114])].lookup "foo"
      = some (PValue.ustr [98, 97, 114])) ∧
    truthy (PValue.ustr [98, 97, 114]) = true ∧
    (mapProperties [("foo", PValue.ustr [98, 97, 114])] stdFieldNames
        (initKwargs (.point 2 48) dlSample)).options.lookup "foo" = none ∧
    (mapProperties [("foo", PValue.ustr [98, 97, 114])] stdFieldNames
        (initKwargs (.point 2 48) dlSample)).options = [] := by
  refine ⟨by decide, by decide, by decide, ?_, ?_⟩ <;> rfl

/-- C8 (amended) -- a property key that appears in no field definition's
candidate list is ignored by the mapper: it is copied neither into the named
fields nor into the options mapping, both of which are left unchanged at
that key (only a winning canonical field name absent from the record's model
field names is ever placed into options, under the canonical name). -/
theorem unmatched_key_left_untouched (props : Props)
    (fieldNames : List String) (kwargs : Kwargs) (k : String)
    (h : ∀ field ∈ FIELDS, k ∉ field) :
    ((mapProperties props fieldNames kwargs).fields.lookup k =
        kwargs.fields.lookup k) ∧
    ((mapProperties props fieldNames kwargs).options.lookup k =
        kwargs.options.lookup k) := by
  have hname : ∀ field ∈ FIELDS, field.headD "" ≠ k := by
    intro field hf
    have hk := h field hf
    fin_cases hf <;> simp only [List.headD] <;> intro e <;> subst e <;>
      simp at hk
  simp only [mapProperties, FIELDS, List.foldl]
  have h1 := hname ["name", "title"] (by simp [FIELDS])
  have h2 := hname ["description", "desc", "text"] (by simp [FIELDS])
  have h3 := hname ["color", "hexcolor"] (by simp [FIELDS])
  simp only [List.headD] at h1 h2 h3
  unfold applyField
  simp only [List.headD]
  obtain ⟨f3, o3⟩ := scan_lookup_ne props fieldNames "color" k
    (scanCandidates props fieldNames "description"
      (scanCandidates props fieldNames "name" kwargs ["name", "title"])
      ["description", "desc", "text"])
    ["color", "hexcolor"] h3
  obtain ⟨f2, o2⟩ := scan_lookup_ne props fieldNames "description" k
    (scanCandidates props fieldNames "name" kwargs ["name", "title"])
    ["description", "desc", "text"] h2
  obtain ⟨f1, o1⟩ := scan_lookup_ne props fieldNames "name" k kwargs
    ["name", "title"] h1
  exact ⟨by rw [f3, f2, f1], by rw [o3, o2, o1]⟩

/-- C8 (amended) witness: the key "foo" of the sample properties is left
untouched by the mapper. -/
theorem unmatched_key_left_untouched_witness :
    (∀ field ∈ FIELDS, "foo" ∉ field) ∧
    ((mapProperties [("foo", PValue.ustr [98, 97, 114])] stdFieldNames
        (initKwargs (.point 2 48) dlSample)).fields.lookup "foo" =
      (initKwargs (.point 2 48) dlSample).fields.lookup "foo") ∧
    ((mapProperties [("foo", PValue.ustr [98, 97, 114])] stdFieldNames
        (initKwargs (.point 2 48) dlSample)).options.lookup "foo" =
      (initKwargs (.point 2 48) dlSample).options.lookup "foo") :=
  ⟨by decide,
    (unmatched_key_left_untouched [("foo", PValue.ustr [98, 97, 114])]
      stdFieldNames (initKwargs (.point 2 48) dlSample) "foo" (by decide)).1,
    (unmatched_key_left_untouched [("foo", PValue.ustr [98, 97, 114])]
      stdFieldNames (initKwargs (.point 2 48) dlSample) "foo" (by decide)).2⟩

end LeafletStorage
